import Mathlib

/-!
Shallow embedding of the `resultgroup` package (group.go, error.go) and proofs
about its error-accumulation, threshold-cancellation and join behaviour.

Modelling conventions:
* A Go `error` value is a `GoError`: an identity tag plus the message its
  `Error()` method returns; `nil`-able errors are `Option GoError`.
* The `cancel func()` field of `Group` is nilable; it is modelled by a
  presence flag `cancel : Bool` (false = nil) together with `cancelCalls`,
  the number of times the function has been invoked.
* `panic` is modelled by returning `none`.
* The mutex and the wait group are pure synchronization devices: a run of the
  group is a sequence of unit reports in completion order, each processed by
  `processResult`, followed by one `Wait`.
-/

namespace Resultgroup

/-- A Go `error` value: an identity tag plus the message returned by its
`Error()` method. -/
structure GoError where
  id : Nat
  msg : String
deriving DecidableEq, Repr

/-- The `multiError` struct of error.go: wraps the recorded component errors. -/
structure multiError where
  errs : List GoError
deriving DecidableEq, Repr

/-- One iteration of the loop in `multiError.Error` (error.go lines 17-22):
given the byte slice built so far and the pair (index, component error) from
`range`, append a newline byte when the index is positive, then append the
component's message bytes. -/
def errStep (b : List Char) (ie : Nat × GoError) : List Char :=
  (if ie.1 > 0 then b ++ ['\n'] else b) ++ ie.2.msg.data

/-- The `Error()` method of `multiError` (error.go lines 15-24): builds a byte
slice by walking the indexed component errors in order, then returns the bytes
as a string. -/
def multiError.Error (me : multiError) : String :=
  (me.errs.enum.foldl errStep []).asString

/-- The `Unwrap()` method of `multiError` (error.go lines 26-28). -/
def multiError.Unwrap (me : multiError) : List GoError :=
  me.errs

/-- The `Group[T]` struct of group.go. The zero value `Group[T]{}` is `{}`:
no recorded errors, nil cancel function, threshold 0, no results. -/
structure Group (T : Type) where
  errs : List GoError := []
  cancel : Bool := false
  cancelCalls : Nat := 0
  threshold : Int := 0
  results : List T := []
deriving DecidableEq, Repr

variable {T : Type}

/-- The guarded invocation `if g.cancel != nil { g.cancel() }` that appears in
both `handleErrors` and `Wait`. -/
def Group.invokeCancel (g : Group T) : Group T :=
  if g.cancel then { g with cancelCalls := g.cancelCalls + 1 } else g

/-- `WithErrorsThreshold` (group.go lines 24-32): panics (modelled as `none`)
when `threshold < 1`; otherwise derives a cancellable context from the parent
and returns a Group retaining the derived context's cancel function
(`cancel := true`) and the threshold. -/
def WithErrorsThreshold (T : Type) (threshold : Int) : Option (Group T) :=
  if threshold < 1 then none
  else some { cancel := true, threshold := threshold }

/-- The first statement of `handleErrors` (group.go lines 61-63): append the
error when the threshold is 0 (unlimited) or the recorded list is still below
the threshold. -/
def Group.appendIfBelow (g : Group T) (err : GoError) : Group T :=
  if g.threshold = 0 ∨ (g.errs.length : Int) < g.threshold
    then { g with errs := g.errs ++ [err] } else g

/-- The second statement of `handleErrors` (group.go lines 65-69): when the
recorded list length equals the threshold, invoke the cancel function if one
is present. -/
def Group.thresholdCheck (g : Group T) : Group T :=
  if (g.errs.length : Int) = g.threshold then g.invokeCancel else g

/-- `handleErrors` (group.go lines 57-70): under the lock, run the conditional
append followed by the threshold check. -/
def Group.handleErrors (g : Group T) (err : GoError) : Group T :=
  (g.appendIfBelow err).thresholdCheck

/-- `appendResults` (group.go lines 72-76). -/
def Group.appendResults (g : Group T) (res : List T) : Group T :=
  { g with results := g.results ++ res }

/-- `processResult` (group.go lines 49-55): handle the error when it is
non-nil, then append the results. -/
def Group.processResult (g : Group T) (res : List T) (err : Option GoError) : Group T :=
  (match err with
    | some e => g.handleErrors e
    | none => g).appendResults res

/-- The return dispatch of `Wait` (group.go lines 90-94): return the
accumulated results together with `nil` when no errors were recorded, and with
a `multiError` wrapping the recorded errors otherwise. The first component is
the Group state in which `Wait` returns, so that the effect of `Wait`'s own
cancel invocation (group.go lines 86-88) stays observable. -/
def Group.waitReturn (g : Group T) : Group T × List T × Option multiError :=
  if g.errs.length = 0 then (g, g.results, none)
  else (g, g.results, some { errs := g.errs })

/-- `Wait` proper: the guarded cancel invocation followed by the return
dispatch. -/
def Group.Wait (g : Group T) : Group T × List T × Option multiError :=
  g.invokeCancel.waitReturn

/-- A whole run of the group: a sequence of unit reports `(results, error)` in
completion order, each processed by `processResult`. -/
def Group.runReports (g : Group T) (rs : List (List T × Option GoError)) : Group T :=
  rs.foldl (fun g r => g.processResult r.1 r.2) g

/-- A sequence of error reports in completion order, each handled by
`handleErrors`. -/
def Group.runErrors (g : Group T) (es : List GoError) : Group T :=
  es.foldl Group.handleErrors g

@[simp]
theorem invokeCancel_errs (g : Group T) : g.invokeCancel.errs = g.errs := by
  unfold Group.invokeCancel; split <;> rfl

@[simp]
theorem invokeCancel_results (g : Group T) : g.invokeCancel.results = g.results := by
  unfold Group.invokeCancel; split <;> rfl

@[simp]
theorem invokeCancel_cancel (g : Group T) : g.invokeCancel.cancel = g.cancel := by
  unfold Group.invokeCancel; split <;> rfl

@[simp]
theorem invokeCancel_threshold (g : Group T) : g.invokeCancel.threshold = g.threshold := by
  unfold Group.invokeCancel; split <;> rfl

theorem invokeCancel_cancelCalls (g : Group T) :
    g.invokeCancel.cancelCalls = g.cancelCalls + if g.cancel then 1 else 0 := by
  unfold Group.invokeCancel; split <;> simp_all

@[simp]
theorem appendIfBelow_cancel (g : Group T) (e : GoError) :
    (g.appendIfBelow e).cancel = g.cancel := by
  unfold Group.appendIfBelow; split <;> rfl

@[simp]
theorem appendIfBelow_threshold (g : Group T) (e : GoError) :
    (g.appendIfBelow e).threshold = g.threshold := by
  unfold Group.appendIfBelow; split <;> rfl

@[simp]
theorem appendIfBelow_results (g : Group T) (e : GoError) :
    (g.appendIfBelow e).results = g.results := by
  unfold Group.appendIfBelow; split <;> rfl

@[simp]
theorem appendIfBelow_cancelCalls (g : Group T) (e : GoError) :
    (g.appendIfBelow e).cancelCalls = g.cancelCalls := by
  unfold Group.appendIfBelow; split <;> rfl

theorem appendIfBelow_errs (g : Group T) (e : GoError) :
    (g.appendIfBelow e).errs =
      if g.threshold = 0 ∨ (g.errs.length : Int) < g.threshold
        then g.errs ++ [e] else g.errs := by
  unfold Group.appendIfBelow; split <;> simp_all

@[simp]
theorem thresholdCheck_errs (g : Group T) : g.thresholdCheck.errs = g.errs := by
  unfold Group.thresholdCheck; split <;> simp

@[simp]
theorem thresholdCheck_cancel (g : Group T) : g.thresholdCheck.cancel = g.cancel := by
  unfold Group.thresholdCheck; split <;> simp

@[simp]
theorem thresholdCheck_threshold (g : Group T) :
    g.thresholdCheck.threshold = g.threshold := by
  unfold Group.thresholdCheck; split <;> simp

@[simp]
theorem thresholdCheck_results (g : Group T) :
    g.thresholdCheck.results = g.results := by
  unfold Group.thresholdCheck; split <;> simp

theorem thresholdCheck_cancelCalls (g : Group T) :
    g.thresholdCheck.cancelCalls =
      g.cancelCalls +
        if (g.errs.length : Int) = g.threshold ∧ g.cancel = true then 1 else 0 := by
  unfold Group.thresholdCheck
  rcases hc : g.cancel <;> rcases ht : decide ((g.errs.length : Int) = g.threshold) <;>
    simp_all [invokeCancel_cancelCalls]

@[simp]
theorem handleErrors_cancel (g : Group T) (e : GoError) :
    (g.handleErrors e).cancel = g.cancel := by
  unfold Group.handleErrors; simp

@[simp]
theorem handleErrors_threshold (g : Group T) (e : GoError) :
    (g.handleErrors e).threshold = g.threshold := by
  unfold Group.handleErrors; simp

@[simp]
theorem handleErrors_results (g : Group T) (e : GoError) :
    (g.handleErrors e).results = g.results := by
  unfold Group.handleErrors; simp

theorem handleErrors_errs (g : Group T) (e : GoError) :
    (g.handleErrors e).errs =
      if g.threshold = 0 ∨ (g.errs.length : Int) < g.threshold
        then g.errs ++ [e] else g.errs := by
  unfold Group.handleErrors
  simp [appendIfBelow_errs]

theorem handleErrors_cancelCalls (g : Group T) (e : GoError) :
    (g.handleErrors e).cancelCalls =
      g.cancelCalls +
        if ((g.handleErrors e).errs.length : Int) = g.threshold ∧ g.cancel = true
          then 1 else 0 := by
  unfold Group.handleErrors
  rw [thresholdCheck_cancelCalls]
  simp [Group.handleErrors]

theorem handleErrors_length_le (g : Group T) (e : GoError)
    (ht : 1 ≤ g.threshold) (h : (g.errs.length : Int) ≤ g.threshold) :
    ((g.handleErrors e).errs.length : Int) ≤ g.threshold := by
  rw [handleErrors_errs]
  split
  · rename_i hcond
    rcases hcond with h0 | hlt
    · omega
    · simp only [List.length_append, List.length_cons, List.length_nil]
      push_cast
      omega
  · exact h

theorem handleErrors_at_cap (g : Group T) (e : GoError)
    (ht : 1 ≤ g.threshold) (h : (g.errs.length : Int) = g.threshold) :
    (g.handleErrors e).errs = g.errs := by
  rw [handleErrors_errs]
  split
  · rename_i hcond
    rcases hcond with h0 | hlt <;> omega
  · rfl

@[simp]
theorem runErrors_nil (g : Group T) : g.runErrors [] = g := rfl

@[simp]
theorem runErrors_cons (g : Group T) (e : GoError) (es : List GoError) :
    g.runErrors (e :: es) = (g.handleErrors e).runErrors es := rfl

theorem runErrors_threshold (g : Group T) (es : List GoError) :
    (g.runErrors es).threshold = g.threshold := by
  induction es generalizing g with
  | nil => rfl
  | cons e es ih => rw [runErrors_cons, ih, handleErrors_threshold]

theorem runErrors_cancel (g : Group T) (es : List GoError) :
    (g.runErrors es).cancel = g.cancel := by
  induction es generalizing g with
  | nil => rfl
  | cons e es ih => rw [runErrors_cons, ih, handleErrors_cancel]

theorem runErrors_length_le (g : Group T) (es : List GoError)
    (ht : 1 ≤ g.threshold) (h : (g.errs.length : Int) ≤ g.threshold) :
    (((g.runErrors es).errs.length : Int)) ≤ g.threshold := by
  induction es generalizing g with
  | nil => exact h
  | cons e es ih =>
    rw [runErrors_cons]
    have h1 := handleErrors_length_le g e ht h
    have h2 := ih (g.handleErrors e)
    rw [handleErrors_threshold] at h2
    exact h2 ht h1

@[simp]
theorem appendResults_errs (g : Group T) (res : List T) :
    (g.appendResults res).errs = g.errs := rfl

@[simp]
theorem appendResults_cancel (g : Group T) (res : List T) :
    (g.appendResults res).cancel = g.cancel := rfl

@[simp]
theorem appendResults_cancelCalls (g : Group T) (res : List T) :
    (g.appendResults res).cancelCalls = g.cancelCalls := rfl

@[simp]
theorem appendResults_threshold (g : Group T) (res : List T) :
    (g.appendResults res).threshold = g.threshold := rfl

@[simp]
theorem appendResults_results (g : Group T) (res : List T) :
    (g.appendResults res).results = g.results ++ res := rfl

theorem processResult_results (g : Group T) (res : List T) (err : Option GoError) :
    (g.processResult res err).results = g.results ++ res := by
  unfold Group.processResult
  rcases err with _ | e <;> simp

theorem processResult_errs (g : Group T) (res : List T) (err : Option GoError) :
    (g.processResult res err).errs =
      (match err with
        | some e => (g.handleErrors e).errs
        | none => g.errs) := by
  unfold Group.processResult
  rcases err with _ | e <;> simp

theorem processResult_cancel (g : Group T) (res : List T) (err : Option GoError) :
    (g.processResult res err).cancel = g.cancel := by
  unfold Group.processResult
  rcases err with _ | e <;> simp

theorem processResult_threshold (g : Group T) (res : List T) (err : Option GoError) :
    (g.processResult res err).threshold = g.threshold := by
  unfold Group.processResult
  rcases err with _ | e <;> simp

theorem processResult_cancelCalls_of_nil_cancel (g : Group T) (res : List T)
    (err : Option GoError) (hc : g.cancel = false) :
    (g.processResult res err).cancelCalls = g.cancelCalls := by
  unfold Group.processResult
  rcases err with _ | e
  · simp
  · rw [appendResults_cancelCalls, handleErrors_cancelCalls, hc]
    simp

@[simp]
theorem runReports_nil (g : Group T) : g.runReports [] = g := rfl

@[simp]
theorem runReports_cons (g : Group T) (r : List T × Option GoError)
    (rs : List (List T × Option GoError)) :
    g.runReports (r :: rs) = (g.processResult r.1 r.2).runReports rs := rfl

theorem runReports_cancel (g : Group T) (rs : List (List T × Option GoError)) :
    (g.runReports rs).cancel = g.cancel := by
  induction rs generalizing g with
  | nil => rfl
  | cons r rs ih => rw [runReports_cons, ih, processResult_cancel]

theorem runReports_cancelCalls_of_nil_cancel (g : Group T)
    (rs : List (List T × Option GoError)) (hc : g.cancel = false) :
    (g.runReports rs).cancelCalls = g.cancelCalls := by
  induction rs generalizing g with
  | nil => rfl
  | cons r rs ih =>
    rw [runReports_cons, ih, processResult_cancelCalls_of_nil_cancel g r.1 r.2 hc]
    rw [processResult_cancel, hc]

theorem wait_fst (g : Group T) : g.Wait.1 = g.invokeCancel := by
  unfold Group.Wait Group.waitReturn
  split <;> rfl

theorem wait_results (g : Group T) : g.Wait.2.1 = g.results := by
  unfold Group.Wait Group.waitReturn
  split <;> simp

theorem wait_err_none_iff (g : Group T) : g.Wait.2.2 = none ↔ g.errs = [] := by
  unfold Group.Wait Group.waitReturn
  split <;> rename_i h <;> simp_all

theorem wait_err_unwrap (g : Group T) :
    g.Wait.2.2.elim [] multiError.Unwrap = g.errs := by
  unfold Group.Wait Group.waitReturn
  split <;> rename_i h <;> simp_all [multiError.Unwrap]

/-- C1, counterexample: with threshold 1 and the cancel trigger present, the
first error report crosses the threshold and invokes the trigger once
(cancelCalls becomes 1), but a second error report arriving after the
threshold has already been reached invokes the trigger again (cancelCalls
becomes 2) because `len(errs) == threshold` still holds after the skipped
append. This contradicts the claim that the trigger is invoked only on the
single report whose append makes `len(errors)` equal the threshold. -/
theorem handleErrors_retriggers_after_cap :
    ((({ cancel := true, threshold := 1 } : Group Nat).handleErrors
        { id := 1, msg := "e1" }).cancelCalls = 1) ∧
      (((({ cancel := true, threshold := 1 } : Group Nat).handleErrors
          { id := 1, msg := "e1" }).handleErrors
            { id := 2, msg := "e2" }).cancelCalls = 2) := by
  constructor <;> decide

/-- C1 (amended): for a Group with the cancel trigger present, a configured
threshold (at least 1) and at most `threshold` recorded errors, `handleErrors`
invokes the cancellation trigger exactly when the recorded list sits at the
threshold after the conditional append: once on the single report whose append
makes `len(errs) = threshold`, and once more on every further error report
arriving while `len(errs) = threshold`; below the threshold it is not
invoked. -/
theorem handleErrors_trigger_at_or_after_crossing (g : Group Nat) (e : GoError)
    (hc : g.cancel = true) (ht : 1 ≤ g.threshold)
    (hinv : (g.errs.length : Int) ≤ g.threshold) :
    (g.handleErrors e).cancelCalls =
      g.cancelCalls +
        if (g.errs.length : Int) + 1 = g.threshold ∨ (g.errs.length : Int) = g.threshold
          then 1 else 0 := by
  rw [handleErrors_cancelCalls, handleErrors_errs, hc]
  simp only [eq_self_iff_true, and_true]
  by_cases hlt : (g.errs.length : Int) < g.threshold
  · rw [if_pos (Or.inr hlt)]
    have hiff : (((g.errs ++ [e]).length : Int) = g.threshold) ↔
        ((g.errs.length : Int) + 1 = g.threshold ∨ (g.errs.length : Int) = g.threshold) := by
      simp only [List.length_append, List.length_singleton]
      push_cast
      omega
    simp only [hiff]
  · rw [if_neg (by omega : ¬(g.threshold = 0 ∨ (g.errs.length : Int) < g.threshold))]
    have heq : (g.errs.length : Int) = g.threshold := by omega
    simp [heq]

/-- Concrete instance for the amended C1 statement: a Group already at its
threshold of 1 with one prior invocation; the next error report invokes the
trigger again. -/
def gAtCap : Group Nat :=
  { errs := [{ id := 1, msg := "e1" }], cancel := true, cancelCalls := 1, threshold := 1 }

theorem handleErrors_trigger_at_or_after_crossing_witness :
    (gAtCap.cancel = true ∧ 1 ≤ gAtCap.threshold ∧
        (gAtCap.errs.length : Int) ≤ gAtCap.threshold) ∧
      (gAtCap.handleErrors { id := 2, msg := "e2" }).cancelCalls =
        gAtCap.cancelCalls +
          if (gAtCap.errs.length : Int) + 1 = gAtCap.threshold ∨
              (gAtCap.errs.length : Int) = gAtCap.threshold
            then 1 else 0 :=
  ⟨⟨rfl, by decide, by decide⟩,
    handleErrors_trigger_at_or_after_crossing gAtCap { id := 2, msg := "e2" } rfl
      (by decide) (by decide)⟩

/-- C2: for a Group with a configured threshold (at least 1) whose recorded
list respects the cap, any sequence of error reports handled by `handleErrors`
leaves the recorded list within the cap, and once the list sits exactly at the
cap a further error report is silently dropped (the recorded list is
unchanged). -/
theorem errs_length_le_threshold (g : Group Nat) (es : List GoError) (e : GoError)
    (ht : 1 ≤ g.threshold) (h0 : (g.errs.length : Int) ≤ g.threshold) :
    ((g.runErrors es).errs.length : Int) ≤ g.threshold ∧
      ((g.errs.length : Int) = g.threshold → (g.handleErrors e).errs = g.errs) :=
  ⟨runErrors_length_le g es ht h0, fun hcap => handleErrors_at_cap g e ht hcap⟩

/-- Concrete instance for C2: a Group at its cap of 2; two further error
reports leave the recorded list within (here: at) the cap, and the next single
report drops its error. -/
def gCap2 : Group Nat :=
  { errs := [{ id := 1, msg := "a" }, { id := 2, msg := "b" }], cancel := true,
    threshold := 2 }

theorem errs_length_le_threshold_witness :
    (1 ≤ gCap2.threshold ∧ (gCap2.errs.length : Int) ≤ gCap2.threshold) ∧
      (((gCap2.runErrors [{ id := 3, msg := "c" }, { id := 4, msg := "d" }]).errs.length :
            Int) ≤ gCap2.threshold ∧
        ((gCap2.errs.length : Int) = gCap2.threshold →
          (gCap2.handleErrors { id := 5, msg := "e" }).errs = gCap2.errs)) :=
  ⟨⟨by decide, by decide⟩,
    errs_length_le_threshold gCap2 [{ id := 3, msg := "c" }, { id := 4, msg := "d" }]
      { id := 5, msg := "e" } (by decide) (by decide)⟩

/-- C3: `Wait` returns a nil aggregate exactly when the recorded error list is
empty; otherwise the aggregate unwraps to exactly the full ordered recorded
list (so an empty-but-non-nil aggregate is impossible), and the accumulated
results are returned alongside either way. -/
theorem wait_aggregate_spec (g : Group T) :
    (g.Wait.2.2 = none ↔ g.errs = []) ∧
      g.Wait.2.2.elim [] multiError.Unwrap = g.errs ∧
      g.Wait.2.1 = g.results :=
  ⟨wait_err_none_iff g, wait_err_unwrap g, wait_results g⟩

/-- C4: `WithErrorsThreshold` panics (modelled as `none`) exactly when the
threshold is below 1; for any threshold of at least 1 it returns a fresh Group
retaining the cancellation trigger of the derived context and the given
threshold. -/
theorem withErrorsThreshold_spec (t : Int) :
    (WithErrorsThreshold Nat t = none ↔ t < 1) ∧
      (1 ≤ t →
        WithErrorsThreshold Nat t =
          some { errs := [], cancel := true, cancelCalls := 0, threshold := t,
                 results := [] }) := by
  constructor
  · unfold WithErrorsThreshold
    split <;> simp_all
  · intro h1
    unfold WithErrorsThreshold
    rw [if_neg (by omega)]

theorem withErrorsThreshold_spec_witness :
    1 ≤ (3 : Int) ∧
      WithErrorsThreshold Nat 3 =
        some { errs := [], cancel := true, cancelCalls := 0, threshold := 3,
               results := [] } :=
  ⟨by decide, (withErrorsThreshold_spec 3).2 (by decide)⟩

theorem handleErrors_threshold_zero (g : Group T) (e : GoError)
    (h : g.threshold = 0) :
    (g.handleErrors e).errs = g.errs ++ [e] ∧
      (g.handleErrors e).cancelCalls = g.cancelCalls := by
  have herrs : (g.handleErrors e).errs = g.errs ++ [e] := by
    rw [handleErrors_errs, if_pos (Or.inl h)]
  refine ⟨herrs, ?_⟩
  rw [handleErrors_cancelCalls, herrs, h]
  have hne : ¬(((g.errs ++ [e]).length : Int) = 0 ∧ g.cancel = true) := by
    rintro ⟨habs, -⟩
    rw [List.length_append, List.length_singleton] at habs
    push_cast at habs
    omega
  rw [if_neg hne]
  omega

/-- C5: on a Group with threshold 0 (the plain zero-value configuration) every
reported error is appended in order, without bound, and the error-handling
path never invokes the cancellation trigger, however many errors are
reported. -/
theorem threshold_zero_records_all (g : Group Nat) (es : List GoError)
    (h : g.threshold = 0) :
    (g.runErrors es).errs = g.errs ++ es ∧
      (g.runErrors es).cancelCalls = g.cancelCalls := by
  induction es generalizing g with
  | nil => simp
  | cons e es ih =>
    rw [runErrors_cons]
    have hone := handleErrors_threshold_zero g e h
    have hh := ih (g.handleErrors e) (by rw [handleErrors_threshold]; exact h)
    rw [hh.1, hh.2, hone.1, hone.2, List.append_assoc]
    exact ⟨rfl, rfl⟩

theorem threshold_zero_records_all_witness :
    (({} : Group Nat).threshold = 0) ∧
      ((({} : Group Nat).runErrors
            [{ id := 1, msg := "a" }, { id := 2, msg := "b" },
             { id := 3, msg := "c" }]).errs =
          ({} : Group Nat).errs ++
            [{ id := 1, msg := "a" }, { id := 2, msg := "b" },
             { id := 3, msg := "c" }] ∧
        (({} : Group Nat).runErrors
            [{ id := 1, msg := "a" }, { id := 2, msg := "b" },
             { id := 3, msg := "c" }]).cancelCalls = ({} : Group Nat).cancelCalls) :=
  ⟨rfl,
    threshold_zero_records_all {}
      [{ id := 1, msg := "a" }, { id := 2, msg := "b" }, { id := 3, msg := "c" }] rfl⟩

/-- C6: on completion, `Wait` invokes the cancellation trigger exactly when one
exists, unconditionally — in particular also when zero errors were recorded —
before returning the aggregate; with no trigger present the invocation count
is unchanged. -/
theorem wait_invokes_cancel_unconditionally (g : Group T) :
    g.Wait.1.cancelCalls = g.cancelCalls + if g.cancel then 1 else 0 := by
  rw [wait_fst, invokeCancel_cancelCalls]

/-- C7: a unit report carrying both a non-empty result list and a non-nil
error contributes its error through the threshold policy of `handleErrors`
and, independently, appends all of its results; neither contribution is
dropped because of the other. -/
theorem partial_success_preserved (g : Group T) (res : List T) (e : GoError)
    (hres : res ≠ []) :
    (g.processResult res (some e)).results = g.results ++ res ∧
      (g.processResult res (some e)).errs = (g.handleErrors e).errs :=
  ⟨processResult_results g res (some e), by rw [processResult_errs]⟩

theorem partial_success_preserved_witness :
    (([5, 7] : List Nat) ≠ []) ∧
      ((({} : Group Nat).processResult [5, 7] (some { id := 1, msg := "a" })).results =
          ({} : Group Nat).results ++ [5, 7] ∧
        (({} : Group Nat).processResult [5, 7] (some { id := 1, msg := "a" })).errs =
          (({} : Group Nat).handleErrors { id := 1, msg := "a" }).errs) :=
  ⟨by decide, partial_success_preserved {} [5, 7] { id := 1, msg := "a" } (by decide)⟩

/-- The reports of units that all complete without error, in a given
completion order. -/
def allOk (order : List (List T)) : List (List T × Option GoError) :=
  order.map (fun r => (r, none))

@[simp]
theorem allOk_nil : allOk ([] : List (List T)) = [] := rfl

@[simp]
theorem allOk_cons (r : List T) (rest : List (List T)) :
    allOk (r :: rest) = (r, none) :: allOk rest := rfl

theorem runReports_allOk_results (g : Group T) (order : List (List T)) :
    (g.runReports (allOk order)).results = g.results ++ order.flatten := by
  induction order generalizing g with
  | nil => simp
  | cons r rest ih =>
    rw [allOk_cons, runReports_cons, ih, processResult_results, List.flatten_cons,
      List.append_assoc]

theorem runReports_allOk_errs (g : Group T) (order : List (List T)) :
    (g.runReports (allOk order)).errs = g.errs := by
  induction order generalizing g with
  | nil => simp
  | cons r rest ih =>
    rw [allOk_cons, runReports_cons, ih, processResult_errs]

theorem perm_flatten {α : Type} {l₁ l₂ : List (List α)} (h : List.Perm l₁ l₂) :
    List.Perm l₁.flatten l₂.flatten := by
  induction h with
  | nil => exact List.Perm.refl _
  | cons x _ ih =>
    rw [List.flatten_cons, List.flatten_cons]
    exact ih.append_left x
  | swap x y l =>
    rw [List.flatten_cons, List.flatten_cons, List.flatten_cons, List.flatten_cons,
      ← List.append_assoc, ← List.append_assoc]
    exact (List.perm_append_comm).append_right l.flatten
  | trans _ _ ih1 ih2 => exact ih1.trans ih2

theorem ofList_append {α : Type} (s t : List α) :
    Multiset.ofList (s ++ t) = Multiset.ofList s + Multiset.ofList t :=
  rfl

theorem coe_flatten_eq_sum {α : Type} (L : List (List α)) :
    Multiset.ofList L.flatten =
      (L.map (fun r => Multiset.ofList r)).sum := by
  induction L with
  | nil => simp
  | cons r rest ih =>
    rw [List.flatten_cons, List.map_cons, List.sum_cons, ← ih, ofList_append]

/-- C8: when every launched unit reports `(results, nil)`, in any completion
order that is a permutation of the launched units' reports, `Wait` returns a
result sequence whose multiset equals the multiset union of the units' result
lists, together with a nil aggregate. -/
theorem wait_all_success (reports order : List (List Nat))
    (hperm : List.Perm order reports) :
    (Multiset.ofList (({} : Group Nat).runReports (allOk order)).Wait.2.1 =
        (reports.map (fun r => Multiset.ofList r)).sum) ∧
      (({} : Group Nat).runReports (allOk order)).Wait.2.2 = none := by
  have hres : (({} : Group Nat).runReports (allOk order)).results = order.flatten := by
    rw [runReports_allOk_results]
    rfl
  have herrs : (({} : Group Nat).runReports (allOk order)).errs = [] := by
    rw [runReports_allOk_errs]
  constructor
  · rw [wait_results, hres, ← coe_flatten_eq_sum]
    exact Quot.sound (perm_flatten hperm)
  · rw [wait_err_none_iff, herrs]

theorem wait_all_success_witness :
    List.Perm [[2], [1, 3]] [[1, 3], [2]] ∧
      ((Multiset.ofList (({} : Group Nat).runReports (allOk [[2], [1, 3]])).Wait.2.1 =
          (([[1, 3], [2]] : List (List Nat)).map (fun r => Multiset.ofList r)).sum) ∧
        (({} : Group Nat).runReports (allOk [[2], [1, 3]])).Wait.2.2 = none) :=
  ⟨List.Perm.swap [1, 3] [2] [],
    wait_all_success [[1, 3], [2]] [[2], [1, 3]] (List.Perm.swap [1, 3] [2] [])⟩

/-- The byte contribution of all components after the first: each preceded by
one newline byte. -/
def newlinePrefixed : List GoError → List Char
  | [] => []
  | e :: rest => '\n' :: (e.msg.data ++ newlinePrefixed rest)

/-- Modelled from the claim's words: the component messages joined by a single
newline separator, in order — no trailing newline, and a single component
yields its message unchanged. Stated independently of `multiError.Error`, for
comparison with it. -/
def joinedByNewlines : List String → String
  | [] => ""
  | [m] => m
  | m :: m2 :: rest => m ++ "\n" ++ joinedByNewlines (m2 :: rest)

theorem errStep_foldl_enumFrom (l : List GoError) :
    ∀ (k : Nat) (b : List Char), 0 < k →
      ((l.enumFrom k).foldl errStep b) = b ++ newlinePrefixed l := by
  induction l with
  | nil =>
    intro k b hk
    simp [newlinePrefixed]
  | cons e rest ih =>
    intro k b hk
    show ((k, e) :: rest.enumFrom (k + 1)).foldl errStep b = _
    rw [List.foldl_cons, ih (k + 1) _ (Nat.succ_pos k)]
    unfold errStep
    rw [if_pos hk]
    simp [newlinePrefixed]

theorem joinedByNewlines_data (e : GoError) (rest : List GoError) :
    (joinedByNewlines ((e :: rest).map GoError.msg)).data =
      e.msg.data ++ newlinePrefixed rest := by
  induction rest generalizing e with
  | nil =>
    simp [joinedByNewlines, newlinePrefixed]
  | cons e2 rest2 ih =>
    have hnl : ("\n" : String).data = ['\n'] := rfl
    show (joinedByNewlines (e.msg :: e2.msg :: rest2.map GoError.msg)).data = _
    rw [joinedByNewlines, String.data_append, String.data_append, hnl]
    have ih2 :
        (joinedByNewlines (e2.msg :: rest2.map GoError.msg)).data =
          e2.msg.data ++ newlinePrefixed rest2 := ih e2
    rw [ih2]
    simp [newlinePrefixed]

/-- C9: the `Error()` message of a `multiError` equals the concatenation of the
component errors' messages joined by a single newline separator, in recorded
order — no trailing newline, and a single component yields its message
unchanged. -/
theorem multiError_message_joined (errs : List GoError) :
    (multiError.mk errs).Error = joinedByNewlines (errs.map GoError.msg) := by
  cases errs with
  | nil => rfl
  | cons e rest =>
    unfold multiError.Error
    apply String.ext
    have h0 :
        ((e :: rest).enum.foldl errStep []) = e.msg.data ++ newlinePrefixed rest := by
      show (((0, e) :: rest.enumFrom 1).foldl errStep []) = _
      rw [List.foldl_cons]
      have hstep : errStep [] (0, e) = e.msg.data := by
        unfold errStep
        simp
      rw [hstep, errStep_foldl_enumFrom rest 1 e.msg.data (by decide)]
    show (List.foldl errStep [] (e :: rest).enum).asString.data = _
    rw [h0, joinedByNewlines_data]
    exact List.toList_asString _

/-- C10: every trigger invocation in the code sits behind the nil guard, so on
any Group whose cancel function is nil — in particular the plain zero-value
Group — an arbitrary run of unit reports through `handleErrors` and
`appendResults` followed by `Wait` never invokes a cancel function; `Wait`
simply skips its cleanup step. -/
theorem nil_cancel_never_invoked (g : Group Nat)
    (rs : List (List Nat × Option GoError)) (hc : g.cancel = false) :
    ((g.runReports rs).cancelCalls = g.cancelCalls) ∧
      ((g.runReports rs).Wait.1.cancelCalls = g.cancelCalls) := by
  have h1 := runReports_cancelCalls_of_nil_cancel g rs hc
  refine ⟨h1, ?_⟩
  rw [wait_fst, invokeCancel_cancelCalls, runReports_cancel, hc, h1]
  simp

theorem nil_cancel_never_invoked_witness :
    (({} : Group Nat).cancel = false) ∧
      (((({} : Group Nat).runReports
            [([1], some { id := 1, msg := "a" }), ([2], none),
             ([], some { id := 2, msg := "b" })]).cancelCalls =
          ({} : Group Nat).cancelCalls) ∧
        ((({} : Group Nat).runReports
            [([1], some { id := 1, msg := "a" }), ([2], none),
             ([], some { id := 2, msg := "b" })]).Wait.1.cancelCalls =
          ({} : Group Nat).cancelCalls)) :=
  ⟨rfl,
    nil_cancel_never_invoked {}
      [([1], some { id := 1, msg := "a" }), ([2], none),
       ([], some { id := 2, msg := "b" })] rfl⟩

end Resultgroup
